import Mathlib

/-!
Verification development for the Philodo → Shopify CSV scraper
(`philodo_to_shopify.py`, emitted by `src/Main.py`).

Python strings are modelled as lists of characters (`Str`), so that
Python substring tests (`w in s`), `str.strip`, `str.split` and the
regular-expression substitution used for the handle slug can be stated
and computed exactly.  Machine-level details that the claims do not
touch (Unicode lowercasing beyond ASCII, the exact whitespace set of
`str.strip`) are modelled with the corresponding Lean character
predicates, which agree on the ASCII inputs the claims exercise.
-/

namespace PhilodoScraper

/-- Python strings, modelled as lists of characters. -/
abbrev Str := List Char

/-- Python `str.lower()`, applied characterwise. -/
def pyLower (s : Str) : Str := s.map Char.toLower

/-! ## Image extraction (`extract_images`, src/Main.py lines 130-153) -/

/-- One `<img>` element, keeping exactly the four attributes the
extractor reads.  `none` models an absent attribute. -/
structure ImgTag where
  src : Option Str
  dataSrc : Option Str
  dataOriginal : Option Str
  srcset : Option Str

/-- Python `a or b` on optional strings: both `None` and the empty
string are falsy, so they fall through to `b`. -/
def pyOrStr (a b : Option Str) : Option Str :=
  match a with
  | some s => if s = [] then b else some s
  | none => b

/-- Line 134: `img.get("src") or img.get("data-src") or img.get("data-original")`. -/
def chosenSrc (img : ImgTag) : Option Str :=
  pyOrStr img.src (pyOrStr img.dataSrc img.dataOriginal)

/-- Line 138: the banned substrings. -/
def bannedWords : List Str :=
  ["logo".data, "icon".data, "spinner".data, "placeholder".data, "svg".data]

/-- Line 138: `any(x in src.lower() for x in [...])`. -/
def isBanned (s : Str) : Bool :=
  bannedWords.any (fun w => decide (w <:+: pyLower s))

/-- Line 142: `[s.split(" ")[0] for s in srcset.split(",") if s.strip()]`.
`s.split(" ")[0]` is the prefix of `s` up to the first space character,
and a piece survives the `if s.strip()` filter exactly when it contains
a non-whitespace character. -/
def srcsetCandidates (ss : Str) : List Str :=
  ((ss.splitOn ',').filter (fun s => s.any (fun c => !c.isWhitespace))).map
    (fun s => s.takeWhile (fun c => c ≠ ' '))

/-- Lines 141-144: when a non-empty `srcset` attribute is present and
yields a non-empty candidate list, the chosen URL is replaced by the
last candidate. -/
def applySrcset (img : ImgTag) (src : Str) : Str :=
  match img.srcset with
  | some ss =>
    if ss = [] then src
    else
      match (srcsetCandidates ss).getLast? with
      | some cand => cand
      | none => src
  | none => src

/-- Lines 133-145: the URL contributed by a single `<img>` element, if
any.  Elements with no (or an empty) source, and elements whose chosen
source contains a banned substring, contribute nothing; otherwise the
possibly srcset-replaced URL is appended. -/
def imgUrl (img : ImgTag) : Option Str :=
  match chosenSrc img with
  | none => none
  | some src =>
    if src = [] then none
    else if isBanned src then none
    else some (applySrcset img src)

/-- The `urls` list accumulated by the loop of lines 133-145. -/
def rawUrls (imgs : List ImgTag) : List Str := imgs.filterMap imgUrl

/-- Lines 147-152: deduplication preserving first-seen order (the
`seen` set is exactly the set of elements of the accumulator). -/
def dedupFirst (l : List Str) : List Str :=
  l.foldl (fun acc u => if u ∈ acc then acc else acc ++ [u]) []

/-- Line 153: `extract_images` returns the first 12 deduplicated URLs. -/
def extract_images (imgs : List ImgTag) : List Str :=
  (dedupFirst (rawUrls imgs)).take 12

/-- Invariant of the deduplication loop: starting from a duplicate-free
accumulator, the loop appends a duplicate-free sublist of its input and
ends up containing every element of the input. -/
lemma dedup_foldl_spec (l : List Str) :
    ∀ acc : List Str, acc.Nodup →
      ∃ t, l.foldl (fun a u => if u ∈ a then a else a ++ [u]) acc = acc ++ t ∧
        t.Sublist l ∧ (acc ++ t).Nodup ∧ ∀ u ∈ l, u ∈ acc ++ t := by
  induction l with
  | nil =>
    intro acc hacc
    exact ⟨[], by simp, List.nil_sublist _, by simpa using hacc, by simp⟩
  | cons x rest ih =>
    intro acc hacc
    by_cases hx : x ∈ acc
    · obtain ⟨t, h1, h2, h3, h4⟩ := ih acc hacc
      refine ⟨t, ?_, h2.cons x, h3, ?_⟩
      · simpa [hx] using h1
      · intro u hu
        rcases List.mem_cons.mp hu with rfl | hu
        · exact List.mem_append_left _ hx
        · exact h4 u hu
    · have hacc2 : (acc ++ [x]).Nodup := by
        simp [List.nodup_append, hacc, hx]
      obtain ⟨t, h1, h2, h3, h4⟩ := ih (acc ++ [x]) hacc2
      refine ⟨x :: t, ?_, h2.cons₂ x, ?_, ?_⟩
      · simpa [hx, List.append_assoc] using h1
      · simpa [List.append_assoc] using h3
      · intro u hu
        rcases List.mem_cons.mp hu with rfl | hu
        · simp
        · have := h4 u hu
          simpa [List.append_assoc] using this

lemma dedupFirst_nodup (l : List Str) : (dedupFirst l).Nodup := by
  obtain ⟨t, h1, _, h3, _⟩ := dedup_foldl_spec l [] List.nodup_nil
  unfold dedupFirst
  rw [h1]
  simpa using h3

lemma dedupFirst_sublist (l : List Str) : (dedupFirst l).Sublist l := by
  obtain ⟨t, h1, h2, _, _⟩ := dedup_foldl_spec l [] List.nodup_nil
  unfold dedupFirst
  rw [h1]
  simpa using h2

lemma mem_dedupFirst (l : List Str) (u : Str) : u ∈ dedupFirst l ↔ u ∈ l := by
  obtain ⟨t, h1, h2, _, h4⟩ := dedup_foldl_spec l [] List.nodup_nil
  unfold dedupFirst
  rw [h1]
  constructor
  · intro hu
    exact h2.subset (by simpa using hu)
  · intro hu
    simpa using h4 u hu

lemma mem_rawUrls_of_mem_extract (imgs : List ImgTag) (u : Str)
    (hu : u ∈ extract_images imgs) : u ∈ rawUrls imgs := by
  have h1 : u ∈ dedupFirst (rawUrls imgs) :=
    (List.take_sublist _ _).subset hu
  exact (mem_dedupFirst _ u).mp h1

/-- C4: for every list of `<img>` elements, including lists containing
duplicate URLs, the output of `extract_images` contains each URL at most
once (it is duplicate-free), preserves the first-occurrence order of the
accepted URLs (it is a sublist of the accepted URL stream, and before
truncation it contains exactly the accepted URLs), and has length at
most 12. -/
theorem extract_images_dedup_capped (imgs : List ImgTag) :
    (extract_images imgs).Nodup ∧
    (extract_images imgs).length ≤ 12 ∧
    (extract_images imgs).Sublist (rawUrls imgs) ∧
    (∀ u, u ∈ dedupFirst (rawUrls imgs) ↔ u ∈ rawUrls imgs) := by
  refine ⟨?_, ?_, ?_, fun u => mem_dedupFirst _ u⟩
  · exact (List.take_sublist _ _).nodup (dedupFirst_nodup _)
  · exact (List.length_take 12 (dedupFirst (rawUrls imgs))).le.trans
      (min_le_left _ _)
  · exact (List.take_sublist _ _).trans (dedupFirst_sublist _)

/-- C4 witness: the theorem instantiated on a concrete element list with
a duplicated URL. -/
theorem extract_images_dedup_capped_witness :
    (extract_images
        [⟨some "http://a/x.jpg".data, none, none, none⟩,
         ⟨some "http://a/x.jpg".data, none, none, none⟩]).Nodup ∧
    (extract_images
        [⟨some "http://a/x.jpg".data, none, none, none⟩,
         ⟨some "http://a/x.jpg".data, none, none, none⟩]).length ≤ 12 ∧
    (extract_images
        [⟨some "http://a/x.jpg".data, none, none, none⟩,
         ⟨some "http://a/x.jpg".data, none, none, none⟩]).Sublist
      (rawUrls
        [⟨some "http://a/x.jpg".data, none, none, none⟩,
         ⟨some "http://a/x.jpg".data, none, none, none⟩]) ∧
    (∀ u, u ∈ dedupFirst (rawUrls
        [⟨some "http://a/x.jpg".data, none, none, none⟩,
         ⟨some "http://a/x.jpg".data, none, none, none⟩]) ↔
      u ∈ rawUrls
        [⟨some "http://a/x.jpg".data, none, none, none⟩,
         ⟨some "http://a/x.jpg".data, none, none, none⟩]) :=
  extract_images_dedup_capped _

/-- C5 counterexample: the banned-substring filter runs before the
srcset replacement, so a URL containing "logo" that enters through the
last srcset candidate is NOT excluded: with
`<img src="http://a/x.jpg" srcset="z,http://c/logo.jpg">` the output
contains `http://c/logo.jpg`, a URL with the banned substring. -/
theorem banned_url_included_via_srcset :
    "http://c/logo.jpg".data ∈
      extract_images
        [⟨some "http://a/x.jpg".data, none, none, some "z,http://c/logo.jpg".data⟩] ∧
    isBanned "http://c/logo.jpg".data = true := by
  decide

/-- C5 amended: for `<img>` elements that carry no srcset attribute, the
claim holds: any element whose selected src/data-src/data-original URL
contains a banned substring ("logo", "icon", "spinner", "placeholder",
"svg", case-insensitively) is excluded, so no output URL is banned,
regardless of its position in the document. -/
theorem no_banned_url_without_srcset (imgs : List ImgTag)
    (hns : ∀ img ∈ imgs, img.srcset = none) :
    ∀ u ∈ extract_images imgs, isBanned u = false := by
  intro u hu
  have hraw : u ∈ rawUrls imgs := mem_rawUrls_of_mem_extract imgs u hu
  obtain ⟨img, himg, hurl⟩ := List.mem_filterMap.mp hraw
  unfold imgUrl at hurl
  rcases hsrc : chosenSrc img with _ | src
  · rw [hsrc] at hurl
    exact absurd hurl (by simp)
  · rw [hsrc] at hurl
    have hurl2 :
        (if src = [] then none
          else if isBanned src then none else some (applySrcset img src)) = some u := hurl
    by_cases hnil : src = []
    · rw [if_pos hnil] at hurl2
      exact absurd hurl2 (by simp)
    · rw [if_neg hnil] at hurl2
      by_cases hban : isBanned src
      · rw [if_pos hban] at hurl2
        exact absurd hurl2 (by simp)
      · rw [if_neg hban] at hurl2
        have happ : applySrcset img src = src := by
          unfold applySrcset
          rw [hns img himg]
        have husrc : u = src := by
          have := Option.some.inj hurl2
          rw [← this, happ]
        rw [husrc]
        exact Bool.of_not_eq_true hban

/-- C5 amended witness: the theorem applied to a concrete srcset-free
element list. -/
theorem no_banned_url_without_srcset_witness :
    isBanned "http://a/x.jpg".data = false :=
  no_banned_url_without_srcset
    [⟨some "http://a/x.jpg".data, none, none, none⟩]
    (by decide) ("http://a/x.jpg".data) (by decide)

/-- C6: with the conventional srcset formatting `"a.jpg 1x, b.jpg 2x"`
(a space after the comma), the code replaces the chosen URL with the
empty string, not with the URL token `"b.jpg"` of the last candidate:
`s.split(" ")[0]` applied to the piece `" b.jpg 2x"` yields `""`. -/
theorem srcset_last_candidate_bug :
    imgUrl ⟨some "x.jpg".data, none, none, some "a.jpg 1x, b.jpg 2x".data⟩
        = some [] ∧
    srcsetCandidates "a.jpg 1x, b.jpg 2x".data = ["a.jpg".data, []] ∧
    ([] : Str) ≠ "b.jpg".data := by
  decide

/-! ## JSON-LD merging (`extract_json_ld`, src/Main.py lines 104-121) -/

/-- JSON values as produced by `json.loads`.  Object keys are Lean
strings (they are only ever compared for equality). -/
inductive Json where
  | null : Json
  | bool : Bool → Json
  | num : Int → Json
  | str : String → Json
  | arr : List Json → Json
  | obj : List (String × Json) → Json

/-- Python dictionaries are modelled as insertion-ordered association
lists.  `setKey` is `d[k] = v`: overwrite an existing key in place,
otherwise append at the end. -/
def setKey (d : List (String × Json)) (k : String) (v : Json) :
    List (String × Json) :=
  if d.any (fun kv => kv.1 = k) then
    d.map (fun kv => if kv.1 = k then (k, v) else kv)
  else d ++ [(k, v)]

/-- Python `data.update(b)`: apply the entries of `b` in order. -/
def dictUpdate (d b : List (String × Json)) : List (String × Json) :=
  b.foldl (fun acc kv => setKey acc kv.1 kv.2) d

/-- Python `d.get(k)` on a dictionary (first, hence unique, match). -/
def lookupKey (d : List (String × Json)) (k : String) : Option Json :=
  (d.find? (fun kv => kv.1 = k)).map Prod.snd

/-- Line 114: a list block is flattened one level, anything else is a
singleton block list. -/
def flattenBlock : Json → List Json
  | Json.arr xs => xs
  | j => [j]

/-- Lines 115-118: only dict-shaped blocks are merged. -/
def mergeBlock (d : List (String × Json)) : Json → List (String × Json)
  | Json.obj kvs => dictUpdate d kvs
  | _ => d

/-- Lines 104-121: `extract_json_ld` over the sequence of parsed
`application/ld+json` script blocks.  `none` models a block that was
empty or failed `json.loads` (the `except` path skips it). -/
def extract_json_ld (blocks : List (Option Json)) : List (String × Json) :=
  blocks.foldl
    (fun data ob =>
      match ob with
      | none => data
      | some block => (flattenBlock block).foldl mergeBlock data)
    []

/-- The entry list of a dict-shaped JSON value. -/
def objEntries : Json → Option (List (String × Json))
  | Json.obj kvs => some kvs
  | _ => none

/-- The dict-shaped blocks in document order, lists flattened one level,
everything else skipped. -/
def dictBlocks (blocks : List (Option Json)) : List (List (String × Json)) :=
  (blocks.filterMap id).flatMap (fun b => (flattenBlock b).filterMap objEntries)

/-- The value a single block assigns to key `k` (its last entry for `k`,
matching the fact that `json.loads` keeps the last duplicate). -/
def blockValue (k : String) (kvs : List (String × Json)) : Option Json :=
  (kvs.reverse.find? (fun kv => kv.1 = k)).map Prod.snd

/-- The specified last-wins semantics: the value for `k` is the one from
the latest dict block that assigns `k`. -/
def lastWins (blocks : List (Option Json)) (k : String) : Option Json :=
  (dictBlocks blocks).reverse.findSome? (blockValue k)

lemma lookupKey_map_overwrite (d : List (String × Json)) (k : String) (v : Json)
    (hmem : d.any (fun kv => kv.1 = k) = true) :
    lookupKey (d.map (fun kv => if kv.1 = k then (k, v) else kv)) k = some v := by
  induction d with
  | nil => simp at hmem
  | cons a rest ih =>
    by_cases ha : a.1 = k
    · unfold lookupKey
      rw [List.map_cons, if_pos ha,
        List.find?_cons_of_pos _ (by simp)]
      rfl
    · unfold lookupKey
      rw [List.map_cons, if_neg ha,
        List.find?_cons_of_neg _ (by simpa using ha)]
      have hmem2 : rest.any (fun kv => kv.1 = k) = true := by
        rw [List.any_cons] at hmem
        simpa [ha] using hmem
      exact ih hmem2

lemma lookupKey_map_other (d : List (String × Json)) (k : String) (v : Json)
    (k' : String) (hk : k' ≠ k) :
    lookupKey (d.map (fun kv => if kv.1 = k then (k, v) else kv)) k' =
      lookupKey d k' := by
  induction d with
  | nil => rfl
  | cons a rest ih =>
    by_cases ha : a.1 = k
    · unfold lookupKey
      rw [List.map_cons, if_pos ha,
        List.find?_cons_of_neg _ (by simpa using fun h => hk h.symm),
        List.find?_cons_of_neg _ (by simp only [ha, decide_eq_true_eq]; exact fun h => hk h.symm)]
      exact ih
    · unfold lookupKey
      rw [List.map_cons, if_neg ha]
      by_cases ha' : a.1 = k'
      · rw [List.find?_cons_of_pos _ (by simpa using ha'),
          List.find?_cons_of_pos _ (by simpa using ha')]
      · rw [List.find?_cons_of_neg _ (by simpa using ha'),
          List.find?_cons_of_neg _ (by simpa using ha')]
        exact ih

lemma lookupKey_setKey (d : List (String × Json)) (k : String) (v : Json)
    (k' : String) :
    lookupKey (setKey d k v) k' = if k' = k then some v else lookupKey d k' := by
  unfold setKey
  by_cases hmem : d.any (fun kv => kv.1 = k)
  · rw [if_pos hmem]
    by_cases hk : k' = k
    · subst hk
      rw [if_pos rfl]
      exact lookupKey_map_overwrite d k' v hmem
    · rw [if_neg hk]
      exact lookupKey_map_other d k v k' hk
  · rw [if_neg hmem]
    have hnone : d.find? (fun kv => decide (kv.1 = k)) = none := by
      rw [List.find?_eq_none]
      intro kv hkv hdec
      exact hmem (List.any_eq_true.mpr ⟨kv, hkv, hdec⟩)
    by_cases hk : k' = k
    · subst hk
      unfold lookupKey
      rw [if_pos rfl, List.find?_append, hnone]
      simp
    · unfold lookupKey
      rw [if_neg hk, List.find?_append]
      have hlast : List.find? (fun kv => decide (kv.1 = k')) [(k, v)] = none := by
        rw [List.find?_eq_none]
        intro kv hkv hdec
        rcases List.mem_singleton.mp hkv with rfl
        exact hk (of_decide_eq_true hdec).symm
      rw [hlast, Option.or_none]

lemma blockValue_cons (k : String) (kv : String × Json)
    (rest : List (String × Json)) :
    blockValue k (kv :: rest) =
      (blockValue k rest).or (if kv.1 = k then some kv.2 else none) := by
  unfold blockValue
  rw [List.reverse_cons, List.find?_append]
  by_cases hk : kv.1 = k
  · simp [List.find?, hk]
    cases List.find? (fun x => decide (x.1 = k)) rest.reverse <;> simp
  · simp [List.find?, hk]

lemma lookupKey_dictUpdate (b d : List (String × Json)) (k : String) :
    lookupKey (dictUpdate d b) k = (blockValue k b).or (lookupKey d k) := by
  induction b generalizing d with
  | nil => simp [dictUpdate, blockValue]
  | cons kv rest ih =>
    have hstep : dictUpdate d (kv :: rest) = dictUpdate (setKey d kv.1 kv.2) rest := rfl
    rw [hstep, ih, blockValue_cons, lookupKey_setKey]
    rcases blockValue k rest with _ | v
    · by_cases hk : kv.1 = k
      · simp [hk, Option.or]
      · have hk2 : ¬ (k = kv.1) := fun h => hk h.symm
        simp [hk, hk2, Option.or]
    · simp [Option.or]

lemma findSome?_append {α β : Type} (f : α → Option β) (l₁ l₂ : List α) :
    (l₁ ++ l₂).findSome? f = (l₁.findSome? f).or (l₂.findSome? f) := by
  induction l₁ with
  | nil => simp
  | cons a rest ih =>
    simp only [List.cons_append, List.findSome?]
    cases f a <;> simp [ih, Option.or]

lemma lookupKey_foldl_dictUpdate (ds : List (List (String × Json)))
    (d : List (String × Json)) (k : String) :
    lookupKey (ds.foldl dictUpdate d) k =
      (ds.reverse.findSome? (blockValue k)).or (lookupKey d k) := by
  induction ds generalizing d with
  | nil => simp
  | cons b rest ih =>
    simp only [List.foldl_cons, List.reverse_cons]
    rw [ih, findSome?_append, Option.or_assoc, lookupKey_dictUpdate]
    congr 1
    simp [List.findSome?]
    cases blockValue k b <;> simp [Option.or]

lemma foldl_mergeBlock_eq (js : List Json) (d : List (String × Json)) :
    js.foldl mergeBlock d = (js.filterMap objEntries).foldl dictUpdate d := by
  induction js generalizing d with
  | nil => rfl
  | cons j rest ih =>
    cases j <;> simp [mergeBlock, objEntries, List.filterMap_cons, ih]

lemma extract_json_ld_eq (blocks : List (Option Json)) :
    extract_json_ld blocks = (dictBlocks blocks).foldl dictUpdate [] := by
  suffices h : ∀ d, blocks.foldl
      (fun data ob =>
        match ob with
        | none => data
        | some block => (flattenBlock block).foldl mergeBlock data) d =
      (dictBlocks blocks).foldl dictUpdate d from h []
  induction blocks with
  | nil => intro d; rfl
  | cons ob rest ih =>
    intro d
    cases ob with
    | none =>
      simp only [List.foldl_cons]
      rw [ih d]
      simp [dictBlocks, List.filterMap_cons]
    | some b =>
      simp only [List.foldl_cons]
      rw [ih ((flattenBlock b).foldl mergeBlock d), foldl_mergeBlock_eq]
      simp [dictBlocks, List.filterMap_cons, List.foldl_append]

/-- C7: for every sequence of parsed `application/ld+json` blocks (lists
flattened one level, non-dict and unparseable blocks skipped), the
merged mapping gives every key the value from the LATEST dict block
assigning it: last-wins, never first-wins. -/
theorem json_ld_last_wins (blocks : List (Option Json)) (k : String) :
    lookupKey (extract_json_ld blocks) k = lastWins blocks k := by
  rw [extract_json_ld_eq, lookupKey_foldl_dictUpdate, lastWins]
  have h0 : lookupKey [] k = none := rfl
  rw [h0, Option.or_none]

/-- C7 witness: two blocks assigning the same key; the merged value is
the later one. -/
theorem json_ld_last_wins_witness :
    lookupKey
      (extract_json_ld
        [some (Json.obj [("sku", Json.str "A")]),
         some (Json.obj [("sku", Json.str "B")])]) "sku" =
      lastWins
        [some (Json.obj [("sku", Json.str "A")]),
         some (Json.obj [("sku", Json.str "B")])] "sku" :=
  json_ld_last_wins _ "sku"

/-! ## Price extraction from JSON-LD (`parse_product`, lines 217-229)

`parse_product` itself installs no exception handler, and neither does
the per-URL loop of `main` (lines 335-342): any exception raised while
extracting fields propagates out of the program.  The price path is the
one place where arbitrary JSON shapes reach an unguarded attribute
access: `offers[0].get("price")` is evaluated whenever `offers` is a
non-empty list, even when its first element is not a dict, in which
case Python raises `AttributeError`. -/

/-- The exception relevant to the price path. -/
inductive PyExc where
  | attributeError
deriving DecidableEq

/-- Python `x.get(k)`: succeeds on a dict, raises `AttributeError` on
every other JSON value. -/
def jsonGet : Json → String → Except PyExc (Option Json)
  | Json.obj kvs, k => Except.ok (lookupKey kvs k)
  | _, _ => Except.error PyExc.attributeError

/-- Lines 218-224: price from the merged JSON-LD mapping.  A dict
`offers` is read with `offers.get("price")`; a non-empty list `offers`
is read with `offers[0].get("price")`, which raises when the first
element is not a dict; anything else leaves the price unset. -/
def price_from_json_ld (json_ld : List (String × Json)) :
    Except PyExc (Option Json) :=
  match lookupKey json_ld "offers" with
  | some (Json.obj kvs) => Except.ok (lookupKey kvs "price")
  | some (Json.arr (o :: _)) => jsonGet o "price"
  | _ => Except.ok none

/-- C1: `parse_product` is NOT exception-free over arbitrary JSON-LD
shapes.  On a page whose only structured-metadata block is
`{"offers": ["x"]}` — a list whose first element is not a dict — the
price extraction raises `AttributeError` instead of degrading to a
fallback, and no handler in `parse_product` or `main` catches it. -/
theorem parse_product_price_raises :
    price_from_json_ld
        (extract_json_ld [some (Json.obj [("offers", Json.arr [Json.str "x"])])]) =
      Except.error PyExc.attributeError := by
  rfl

/-! ## Handle derivation (`parse_product`, lines 242-245) -/

/-- Membership in the character class `[a-z0-9-]` of the slug regex. -/
def isSlugChar (c : Char) : Bool :=
  (decide ('a' ≤ c) && decide (c ≤ 'z')) ||
    (decide ('0' ≤ c) && decide (c ≤ '9')) || (c == '-')

/-- The substitution `re.sub(r"[^a-z0-9\-]+", "-", s)`: every maximal
run of characters outside `[a-z0-9-]` becomes a single hyphen.  The
flag records whether the previous character belonged to such a run. -/
def collapseAux : Bool → Str → Str
  | _, [] => []
  | inRun, c :: rest =>
    if isSlugChar c then c :: collapseAux false rest
    else if inRun then collapseAux true rest
    else '-' :: collapseAux true rest

/-- The substitution applied by line 242, starting outside a run. -/
def collapseBad (s : Str) : Str := collapseAux false s

/-- Python `s.strip("-")`: drop every leading and trailing hyphen. -/
def stripHyphens (s : Str) : Str :=
  (((s.dropWhile (fun c => c == '-')).reverse.dropWhile (fun c => c == '-'))).reverse

/-- The vendor name compared against and prefixed by lines 244-245. -/
def philodoChars : Str := "philodo".data

/-- Line 242: the stripped slug of a title. -/
def slugOf (title : Str) : Str := stripHyphens (collapseBad (pyLower title))

/-- Lines 242-245: the slug, with the vendor prefix added when
`"philodo"` is not already a substring. -/
def derive_handle (title : Str) : Str :=
  let slug := slugOf title
  if philodoChars <:+: slug then slug else "philodo-".data ++ slug

lemma mem_collapseAux (s : Str) :
    ∀ (b : Bool), ∀ c ∈ collapseAux b s, isSlugChar c = true := by
  induction s with
  | nil => intro b c hc; simp [collapseAux] at hc
  | cons a rest ih =>
    intro b c hc
    by_cases ha : isSlugChar a
    · rw [collapseAux, if_pos ha] at hc
      rcases List.mem_cons.mp hc with rfl | hc
      · exact ha
      · exact ih false c hc
    · rw [collapseAux, if_neg ha] at hc
      cases b with
      | true => exact ih true c (by simpa using hc)
      | false =>
        rcases List.mem_cons.mp (by simpa using hc) with rfl | hc2
        · decide
        · exact ih true c hc2

lemma head?_dropWhile_bool (p : Char → Bool) (l : Str) :
    ∀ c, (l.dropWhile p).head? = some c → p c = false := by
  induction l with
  | nil => intro c hc; simp [List.dropWhile] at hc
  | cons a rest ih =>
    intro c hc
    by_cases ha : p a
    · rw [List.dropWhile_cons_of_pos ha] at hc
      exact ih c hc
    · rw [List.dropWhile_cons_of_neg ha] at hc
      have : a = c := by simpa using hc
      subst this
      exact Bool.of_not_eq_true ha

lemma stripHyphens_isPrefix (l : Str) :
    stripHyphens l <+: (l.dropWhile (fun c => c == '-')) := by
  rw [← List.reverse_suffix]
  unfold stripHyphens
  rw [List.reverse_reverse]
  exact List.dropWhile_suffix _

lemma mem_stripHyphens (l : Str) (c : Char) (h : c ∈ stripHyphens l) : c ∈ l := by
  have h1 : c ∈ l.dropWhile (fun c => c == '-') :=
    (stripHyphens_isPrefix l).subset h
  exact (List.dropWhile_suffix _).subset h1

lemma head?_stripHyphens (l : Str) (c : Char)
    (h : (stripHyphens l).head? = some c) : (c == '-') = false := by
  obtain ⟨t, ht⟩ := stripHyphens_isPrefix l
  have h2 : (l.dropWhile (fun c => c == '-')).head? = some c := by
    rw [← ht, List.head?_append, h]
    rfl
  exact head?_dropWhile_bool _ l c h2

lemma getLast?_stripHyphens (l : Str) (c : Char)
    (h : (stripHyphens l).getLast? = some c) : (c == '-') = false := by
  have h2 : (stripHyphens l).reverse.head? = some c := by
    rw [List.head?_reverse, h]
  have h3 : (stripHyphens l).reverse =
      ((l.dropWhile (fun c => c == '-')).reverse.dropWhile (fun c => c == '-')) := by
    unfold stripHyphens
    rw [List.reverse_reverse]
  rw [h3] at h2
  exact head?_dropWhile_bool _ _ c h2

lemma philodoPrefixChars : ∀ c ∈ "philodo-".data, isSlugChar c = true := by
  decide

/-- C2 counterexample: for the empty title (and any title without
alphanumeric characters) the slug collapses to the empty string and the
vendor prefix produces the handle "philodo-", which ends in a hyphen —
contradicting the claim that the handle never has a trailing hyphen. -/
theorem derive_handle_trailing_hyphen :
    derive_handle "".data = "philodo-".data ∧
    ("philodo-".data).getLast? = some '-' := by
  decide

/-- C2 amended: for every title, the derived handle contains only
lowercase letters, digits and hyphens, has no leading hyphen, and
contains the vendor name "philodo" as a substring; it has no TRAILING
hyphen provided the stripped slug of the title is non-empty (for titles
whose slug is empty — no character that lowercases into `[a-z0-9]` —
the handle is exactly "philodo-", with a trailing hyphen). -/
theorem derive_handle_amended (title : Str) :
    (∀ c ∈ derive_handle title, isSlugChar c = true) ∧
    (derive_handle title).head? ≠ some '-' ∧
    philodoChars <:+: derive_handle title ∧
    (slugOf title ≠ [] → (derive_handle title).getLast? ≠ some '-') := by
  unfold derive_handle
  by_cases hin : philodoChars <:+: slugOf title
  · rw [if_pos hin]
    refine ⟨?_, ?_, hin, ?_⟩
    · intro c hc
      exact mem_collapseAux _ false c (mem_stripHyphens _ c hc)
    · intro hcon
      have := head?_stripHyphens _ '-' hcon
      simp at this
    · intro _ hcon
      have := getLast?_stripHyphens _ '-' hcon
      simp at this
  · rw [if_neg hin]
    refine ⟨?_, ?_, ?_, ?_⟩
    · intro c hc
      rcases List.mem_append.mp hc with hc | hc
      · exact philodoPrefixChars c hc
      · exact mem_collapseAux _ false c (mem_stripHyphens _ c hc)
    · have hred : "philodo-".data ++ slugOf title =
          'p' :: ("hilodo-".data ++ slugOf title) := rfl
      rw [hred]
      simp
    · exact ⟨[], '-' :: slugOf title, rfl⟩
    · intro hne hcon
      rw [List.getLast?_append_of_ne_nil _ hne] at hcon
      have := getLast?_stripHyphens _ '-' hcon
      simp at this

/-- C2 amended witness: a concrete title with a non-empty slug. -/
theorem derive_handle_amended_witness :
    (derive_handle "Falcon 60V!".data).getLast? ≠ some '-' :=
  (derive_handle_amended "Falcon 60V!".data).2.2.2 (by decide)

/-! ## Row mapping (`product_to_rows`, src/Main.py lines 276-325) -/

/-- The `ProductData` dataclass (lines 60-78). -/
structure ProductData where
  handle : Str
  title : Str
  body_html : Str
  vendor : Str
  product_type : Str
  tags : List Str
  images : List Str
  price : Option Str
  compare_at_price : Option Str
  sku : Option Str
  grams : Option Str
  weight_unit : Str
  requires_shipping : Bool
  taxable : Bool
  published : Bool
  option1_name : Str
  option1_value : Str
deriving DecidableEq

/-- Lines 276-282: the fixed 25-column header row. -/
def CSV_HEADERS : List Str :=
  ["Handle".data, "Title".data, "Body (HTML)".data, "Vendor".data,
   "Standard Product Type".data, "Tags".data, "Published".data,
   "Option1 Name".data, "Option1 Value".data, "Variant SKU".data,
   "Variant Grams".data, "Variant Inventory Tracker".data,
   "Variant Inventory Policy".data, "Variant Fulfillment Service".data,
   "Variant Price".data, "Variant Compare At Price".data,
   "Variant Requires Shipping".data, "Variant Taxable".data,
   "Variant Weight Unit".data, "Image Src".data, "Image Position".data,
   "Image Alt Text".data, "SEO Title".data, "SEO Description".data,
   "Google Product Category".data]

/-- Python `"TRUE" if b else "FALSE"`. -/
def pyBool (b : Bool) : Str := if b then "TRUE".data else "FALSE".data

/-- Python `x or ""` on an optional string. -/
def orEmpty (o : Option Str) : Str := o.getD []

/-- Python `str(n)` for the image position. -/
def natStr (n : Nat) : Str := (toString n).data

/-- Lines 289-315: the base row.  It lists the record fields in header
order but contains only 24 cells — the list literal in the source has
24 entries while `CSV_HEADERS` has 25. -/
def base_row (p : ProductData) : List Str :=
  let first_img := p.images.headI
  [p.handle,
   p.title,
   p.body_html,
   p.vendor,
   [],
   List.intercalate ",".data p.tags,
   pyBool p.published,
   p.option1_name,
   p.option1_value,
   orEmpty p.sku,
   orEmpty p.grams,
   "shopify".data,
   "deny".data,
   "manual".data,
   orEmpty p.price,
   orEmpty p.compare_at_price,
   pyBool p.requires_shipping,
   pyBool p.taxable,
   p.weight_unit,
   first_img,
   if first_img ≠ [] then "1".data else [],
   p.title,
   "Buy ".data ++ p.title ++ " by ".data ++ p.vendor ++
     " – dual motor e-bike, fast shipping.".data,
   "Sporting Goods > Outdoor Recreation > Cycling > Electric Bicycles".data]

/-- Lines 319-323: one supplementary row per additional image — 25
cells, only handle, image URL and image position non-empty. -/
def extra_row (p : ProductData) (idx : Nat) (img : Str) : List Str :=
  [p.handle, [], [], [], [], [], [], [], [], [], [], [], [], [], [], [], [], [], [],
   img, natStr idx, [], [], [], []]

/-- Lines 284-325: base row followed by supplementary rows for the
images beyond the first, positions starting at 2. -/
def product_to_rows (p : ProductData) : List (List Str) :=
  base_row p ::
    (List.enumFrom 2 (p.images.drop 1)).map (fun e => extra_row p e.1 e.2)

/-- A fully populated sample record with one image. -/
def sampleProduct : ProductData where
  handle := "philodo-falcon".data
  title := "Falcon".data
  body_html := "<p>d</p>".data
  vendor := "Philodo".data
  product_type := "t".data
  tags := ["e-bike".data]
  images := ["http://i/a.jpg".data]
  price := some "999".data
  compare_at_price := some "1099".data
  sku := some "F1".data
  grams := some "2".data
  weight_unit := "lb".data
  requires_shipping := true
  taxable := true
  published := true
  option1_name := "Title".data
  option1_value := "Default Title".data

/-- The same record without images. -/
def sampleNoImages : ProductData :=
  { sampleProduct with images := [] }

lemma getElem?_enumFrom_map_row (p : ProductData) (l : List Str) :
    ∀ (n j : Nat),
      ((List.enumFrom n l).map (fun e => extra_row p e.1 e.2))[j]? =
        l[j]?.map (fun img => extra_row p (n + j) img) := by
  induction l with
  | nil => intro n j; simp
  | cons a rest ih =>
    intro n j
    cases j with
    | zero => simp [List.enumFrom]
    | succ j' =>
      simp only [List.enumFrom, List.map_cons, List.getElem?_cons_succ]
      rw [ih (n + 1) j']
      have harith : n + 1 + j' = n + (j' + 1) := by omega
      rw [harith]

/-- C3 counterexample: even for a fully populated record with one
image, the first row does not have all 25 fixed columns populated — the
base-row list literal has only 24 cells, and its Standard Product Type
cell is hard-coded to the empty string. -/
theorem base_row_not_fully_populated :
    (product_to_rows sampleProduct).length = 1 ∧
    ¬ ((product_to_rows sampleProduct).headI.length = 25 ∧
        ∀ cell ∈ (product_to_rows sampleProduct).headI, cell ≠ []) := by
  decide

/-- C3 amended: for every record with n ≥ 1 images, `product_to_rows`
returns exactly n rows.  The first row is the base row, which lists the
record fields in header order but has only 24 cells (its Standard
Product Type cell is always empty, and the 25th header column, Google
Product Category, receives no cell); it carries the first image URL at
the Image Src index and, when that URL is non-empty, "1" at the Image
Position index.  Each subsequent row i (image index i, 2 ≤ i ≤ n) has
25 cells with only the handle, that image URL and the position str(i)
populated, every other cell the empty string. -/
theorem product_to_rows_amended (p : ProductData) (h : p.images ≠ []) :
    (product_to_rows p).length = p.images.length ∧
    (product_to_rows p).headI = base_row p ∧
    (base_row p).length = 24 ∧
    (base_row p)[19]? = some p.images.headI ∧
    (p.images.headI ≠ [] → (base_row p)[20]? = some "1".data) ∧
    (∀ i img, 1 ≤ i → p.images[i]? = some img →
      (product_to_rows p)[i]? = some (extra_row p (i + 1) img)) ∧
    (∀ idx img, (extra_row p idx img).length = 25) := by
  refine ⟨?_, rfl, rfl, rfl, ?_, ?_, fun idx img => rfl⟩
  · have hlen : p.images.length ≠ 0 := by
      simpa using h
    simp only [product_to_rows, List.length_cons, List.length_map,
      List.enumFrom_length, List.length_drop]
    omega
  · intro hne
    have hcell : (base_row p)[20]? =
        some (if p.images.headI ≠ [] then "1".data else []) := rfl
    rw [hcell, if_pos hne]
  · intro i img h1 h2
    cases i with
    | zero => omega
    | succ j =>
      simp only [product_to_rows, List.getElem?_cons_succ]
      rw [getElem?_enumFrom_map_row p (p.images.drop 1) 2 j,
        List.getElem?_drop]
      have harith : 1 + j = j + 1 := by omega
      rw [harith, h2]
      have harith2 : 2 + j = j + 1 + 1 := by omega
      rw [harith2]
      rfl

/-- C3 amended witness: the image-position cell of the sample record. -/
theorem product_to_rows_amended_witness :
    (base_row sampleProduct)[20]? = some "1".data :=
  (product_to_rows_amended sampleProduct (by decide)).2.2.2.2.1 (by decide)

/-- C10: for every record with an empty image list, `product_to_rows`
returns exactly one row whose Image Src and Image Position cells are
both the empty string — but that row has 24 cells, NOT 25: it does not
match the fixed 25-column header, because the base-row literal omits
one cell (the Google Product Category column receives no value and the
last three populated values sit one column to the left). -/
theorem product_to_rows_no_images (p : ProductData) (h : p.images = []) :
    (product_to_rows p).length = 1 ∧
    (base_row p)[19]? = some [] ∧
    (base_row p)[20]? = some [] ∧
    (base_row p).length = 24 ∧
    CSV_HEADERS.length = 25 := by
  refine ⟨?_, ?_, ?_, rfl, rfl⟩
  · simp [product_to_rows, h]
  · have hcell : (base_row p)[19]? = some p.images.headI := rfl
    rw [hcell, h]
    rfl
  · have hcell : (base_row p)[20]? =
        some (if p.images.headI ≠ [] then "1".data else []) := rfl
    rw [hcell, h]
    rfl

/-- C10 witness: the sample record without images. -/
theorem product_to_rows_no_images_witness :
    (product_to_rows sampleNoImages).length = 1 ∧
    (base_row sampleNoImages)[19]? = some [] ∧
    (base_row sampleNoImages)[20]? = some [] ∧
    (base_row sampleNoImages).length = 24 ∧
    CSV_HEADERS.length = 25 :=
  product_to_rows_no_images sampleNoImages rfl

/-! ## Fetcher (`get`, src/Main.py lines 85-97) and main loop

An attempt either yields an HTTP response with some status code or
raises a transport exception (`requests.RequestException`); real time
is modelled by recording the argument of each `time.sleep` call, in
tenths of a second (`RETRY_SLEEP = 1.5` seconds). -/

/-- Outcome of one `requests.get` call. -/
inductive Attempt where
  | ok : Nat → Attempt
  | exn : Attempt
deriving DecidableEq

/-- Line 52: `MAX_RETRIES = 3`. -/
def MAX_RETRIES : Nat := 3

/-- Line 53: `RETRY_SLEEP = 1.5` seconds, in tenths of a second. -/
def RETRY_SLEEP_TENTHS : Nat := 15

/-- Lines 86-95: the retry loop.  `f` gives the outcome of each
1-indexed attempt; the result pairs the index of the succeeding attempt
(or `none`) with the list of sleep durations performed, in order.  The
`time.sleep(RETRY_SLEEP * attempt)` call sits at the end of the loop
body, so it also runs after the final failed attempt. -/
def getAttempts (f : Nat → Attempt) : Nat → Nat → Option Nat × List Nat
  | 0, _ => (none, [])
  | r + 1, attempt =>
    match f attempt with
    | Attempt.ok status =>
      if status = 200 then (some attempt, [])
      else
        ((getAttempts f r (attempt + 1)).1,
          RETRY_SLEEP_TENTHS * attempt :: (getAttempts f r (attempt + 1)).2)
    | Attempt.exn =>
      ((getAttempts f r (attempt + 1)).1,
        RETRY_SLEEP_TENTHS * attempt :: (getAttempts f r (attempt + 1)).2)

/-- The whole of `get(url)`: at most `MAX_RETRIES` attempts starting at 1. -/
def getModel (f : Nat → Attempt) : Option Nat × List Nat :=
  getAttempts f MAX_RETRIES 1

/-! ## Writer (`main`, src/Main.py lines 328-356)

`main` is modelled on the per-URL parse outcomes: one `Option
ProductData` per input URL (`none` when `parse_product` returned
`None`).  The result is the content written to the CSV file, or `none`
when no file is created or modified (the empty-URL usage-hint path and
the zero-products error path both return before the `open`). -/

def mainModel (results : List (Option ProductData)) : Option (List (List Str)) :=
  if results = [] then none
  else
    let products := results.filterMap id
    if products = [] then none
    else some (CSV_HEADERS :: (products.map product_to_rows).flatten)

lemma getAttempts_succ_200 (f : Nat → Attempt) (r attempt : Nat)
    (h : f attempt = Attempt.ok 200) :
    getAttempts f (r + 1) attempt = (some attempt, []) := by
  unfold getAttempts
  rw [h]
  simp

lemma getAttempts_fail (f : Nat → Attempt) (r attempt : Nat)
    (h : f attempt ≠ Attempt.ok 200) :
    getAttempts f (r + 1) attempt =
      ((getAttempts f r (attempt + 1)).1,
        RETRY_SLEEP_TENTHS * attempt :: (getAttempts f r (attempt + 1)).2) := by
  conv_lhs => rw [getAttempts]
  cases hfa : f attempt with
  | ok status =>
    have hs : status ≠ 200 := by
      intro hs
      exact h (hs ▸ hfa)
    simp [hs]
  | exn => rfl

/-- C8 counterexample: when every attempt fails, the code performs
THREE sleeps — 1.5 s, 3.0 s and then 4.5 s after the final failed
attempt — not the claimed two sleeps with none after the last attempt
(the `time.sleep` call is inside the loop body, after the failure
branches). -/
theorem get_sleeps_after_last_attempt :
    getModel (fun _ => Attempt.ok 503) = (none, [15, 30, 45]) ∧
    [15, 30, 45] ≠ [15, 30] := by
  decide

/-- C8 amended: the fetcher makes at most 3 attempts and returns the
response of the first attempt with status 200, having slept
1.5 × attemptNumber seconds after each earlier failed attempt; when all
3 attempts fail it sleeps after every one of them — 1.5 s, 3.0 s, 4.5 s,
including after the final failed attempt — and returns no content, and
the caller records no product for that URL and continues with the
remaining URLs without raising. -/
theorem get_retry_amended (f : Nat → Attempt) :
    (∀ k, (getModel f).1 = some k →
      1 ≤ k ∧ k ≤ 3 ∧ f k = Attempt.ok 200 ∧
        (∀ j, 1 ≤ j → j < k → f j ≠ Attempt.ok 200) ∧
        (getModel f).2 = (List.range (k - 1)).map (fun j => 15 * (j + 1))) ∧
    ((f 1 ≠ Attempt.ok 200 ∧ f 2 ≠ Attempt.ok 200 ∧ f 3 ≠ Attempt.ok 200) →
      getModel f = (none, [15, 30, 45])) ∧
    (∀ rest : List (Option ProductData),
      mainModel (none :: rest) = mainModel rest) := by
  refine ⟨?_, ?_, ?_⟩
  · intro k hk
    by_cases h1 : f 1 = Attempt.ok 200
    · have hg : getModel f = (some 1, []) := getAttempts_succ_200 f 2 1 h1
      rw [hg] at hk ⊢
      have hk1 : k = 1 := by
        simpa using hk.symm
      subst hk1
      exact ⟨le_refl 1, by omega, h1, fun j hj1 hj2 => by omega, by decide⟩
    · have hg1 := getAttempts_fail f 2 1 h1
      by_cases h2 : f 2 = Attempt.ok 200
      · have hg2 : getAttempts f 2 2 = (some 2, []) := getAttempts_succ_200 f 1 2 h2
        have hg : getModel f = (some 2, [15]) := by
          rw [getModel, MAX_RETRIES, hg1, hg2]
          rfl
        rw [hg] at hk ⊢
        have hk2 : k = 2 := by
          simpa using hk.symm
        subst hk2
        refine ⟨by omega, by omega, h2, ?_, by decide⟩
        intro j hj1 hj2
        have hj : j = 1 := by omega
        subst hj
        exact h1
      · have hg2 := getAttempts_fail f 1 2 h2
        by_cases h3 : f 3 = Attempt.ok 200
        · have hg3 : getAttempts f 1 3 = (some 3, []) := getAttempts_succ_200 f 0 3 h3
          have hg : getModel f = (some 3, [15, 30]) := by
            rw [getModel, MAX_RETRIES, hg1, hg2, hg3]
            rfl
          rw [hg] at hk ⊢
          have hk3 : k = 3 := by
            simpa using hk.symm
          subst hk3
          refine ⟨by omega, by omega, h3, ?_, by decide⟩
          intro j hj1 hj2
          have hj : j = 1 ∨ j = 2 := by omega
          rcases hj with rfl | rfl
          · exact h1
          · exact h2
        · have hg3 := getAttempts_fail f 0 3 h3
          have hg : getModel f = (none, [15, 30, 45]) := by
            rw [getModel, MAX_RETRIES, hg1, hg2, hg3]
            rfl
          rw [hg] at hk
          exact absurd hk (by simp)
  · rintro ⟨h1, h2, h3⟩
    have hg1 := getAttempts_fail f 2 1 h1
    have hg2 := getAttempts_fail f 1 2 h2
    have hg3 := getAttempts_fail f 0 3 h3
    rw [getModel, MAX_RETRIES, hg1, hg2, hg3]
    rfl
  · intro rest
    cases rest with
    | nil => rfl
    | cons r rs =>
      unfold mainModel
      simp only [List.filterMap_cons]
      rfl

/-- C8 amended witness: all three attempts raise transport errors. -/
theorem get_retry_amended_witness :
    getModel (fun _ => Attempt.exn) = (none, [15, 30, 45]) :=
  (get_retry_amended (fun _ => Attempt.exn)).2.1 ⟨by decide, by decide, by decide⟩

/-- C9: the output file is created exactly when at least one product was
parsed: `main` returns with no file when the per-URL outcomes contain no
product (including when there are no URLs at all), and otherwise writes
the fixed header row followed by the rows of every parsed product. -/
theorem main_writes_iff_products (results : List (Option ProductData)) :
    (mainModel results = none ↔ results.filterMap id = []) ∧
    (results.filterMap id ≠ [] →
      mainModel results =
        some (CSV_HEADERS :: ((results.filterMap id).map product_to_rows).flatten)) := by
  by_cases hres : results = []
  · subst hres
    exact ⟨by simp [mainModel], fun h => absurd rfl h⟩
  · constructor
    · unfold mainModel
      rw [if_neg hres]
      by_cases hprod : results.filterMap id = []
      · simp [hprod]
      · simp [hprod]
    · intro hprod
      unfold mainModel
      rw [if_neg hres]
      simp only [hprod, if_neg]
      rfl

/-- C9 witness: a run with one parsed product writes header plus rows;
the iff instantiated concretely. -/
theorem main_writes_iff_products_witness :
    mainModel [some sampleProduct] =
      some (CSV_HEADERS ::
        (([some sampleProduct].filterMap id).map product_to_rows).flatten) :=
  (main_writes_iff_products [some sampleProduct]).2 (by simp)

end PhilodoScraper
